import Mathlib

/-!
Verification development for the Settings/Model schema engine of cslib
(src/cslib/settings.py).  The Python classes `Settings`, `Model`, `Type`,
`TemporaryEntry` and the free functions `check_settings`, `parse_to_model`,
`generate_settings`, `conforms` are shallowly embedded below.  Mutation is
modelled by explicit state passing; code that raises exceptions returns
`Except Err`.

Modelling conventions, fixed once here:
* Python values stored in a `Settings` live in the inductive `Val`.  A raw
  `dict` value is auto-wrapped into a `Settings` by `Settings.__setitem__`
  and `Settings.__init__`, so raw mappings are represented already wrapped as
  `Val.vsets`; the wrap in the embedded setters is therefore the identity.
* Nested `Settings` values are represented by their item list only; their
  own `_model` slot (always `None` for nodes auto-created by dotted-path
  writes, which is the only case the claims below exercise) is elided.
* A callable default receives the `Settings` object in Python; here it is a
  pure function of the item list visible at call time.
-/

/-- A value stored in a `Settings` mapping: a scalar, a string, a nested
`Settings` (raw dicts are represented already wrapped, see module comment),
or a stored `TemporaryEntry` (which `Settings.__missing__` can produce when
the model entry for the key is a nested `Model`). -/
inductive Val where
  | vint (n : Int)
  | vstr (s : String)
  | vsets (items : List (String × Val))
  | vtemp (k : String)

/-- Association-list lookup, the embedding of a single-key
`OrderedDict.__getitem__`/`get` hit (first binding wins, as in a dict where
keys are unique). -/
def lookupKey {α : Type} : List (String × α) → String → Option α
  | [], _ => none
  | (k', v) :: rest, k => if k' = k then some v else lookupKey rest k

/-- Association-list store, the embedding of a single-key
`OrderedDict.__setitem__`: an existing key is overwritten in place (keeping
its position), a new key is appended, matching dict insertion order. -/
def setKey {α : Type} : List (String × α) → String → α → List (String × α)
  | [], k, v => [(k, v)]
  | (k', v') :: rest, k, v =>
      if k' = k then (k, v) :: rest else (k', v') :: setKey rest k v

/-- Embedding of Python's `str.split('.')` on the character list: always
returns a non-empty list, and `"".split('.') == [""]`. -/
def splitChars : List Char → List (List Char)
  | [] => [[]]
  | c :: rest =>
      if c = '.' then [] :: splitChars rest
      else
        match splitChars rest with
        | [] => [[c]]
        | g :: gs => (c :: g) :: gs

/-- `splitPath k` embeds `k.split('.')` as used by `Settings.__setitem__`
and `Settings.__getitem__`. -/
def splitPath (s : String) : List String :=
  (splitChars s.data).map List.asString

example : splitPath "a.b.c" = ["a", "b", "c"] := rfl
example : splitPath "x" = ["x"] := rfl
example : splitPath "" = [""] := rfl

/-- The errors the embedded code can raise.  Python exception classes are
mapped to constructors carrying the same diagnostic data:
* `keyNotFound k` — the `KeyError` from `Settings.__missing__` / `Model`
  lookup ("Key k doesn't match any entry in settings.");
* `keyNotInModel k` — the `KeyError` from `parse_to_model` ("Key k not in
  model.");
* `checkFailed k v` — the `TypeError` raised by `check_settings`
  ("Type-check for setting k failed: v"); this is the error the spec's
  taxonomy calls `ValidationError`, carrying key and offending value;
* `notSettings k` — the `TypeError` from traversing/writing through a value
  that is not a `Settings`;
* `notSubscriptable k` — the `TypeError` from indexing a non-mapping during
  dotted-path resolution in a `Model`;
* `notCallable a` — the `TypeError` from calling the non-callable attribute
  `a` (`check`, `parser` or `generator`) of a nested `Model` entry or a
  `Type` whose `check` is `None`;
* `noneNotSubscriptable` — the `TypeError` from `None[k]` in
  `generate_settings` when `_model` is `None`;
* `missingObligatory k` — the spec's `MissingObligatoryError` (the eager
  pass is not in src/, see `apply_defaults_and_check` below);
* `entryAsValue k` — stands for the unrepresentable corner in
  `Settings.__missing__` where the Python code would store a schema object
  itself as a value (nested `Model` entry declaring a literal key
  `"default"`); no claim depends on it;
* `emptyPath` — unreachable guard: `splitPath` never returns `[]`. -/
inductive Err where
  | keyNotFound (k : String)
  | keyNotInModel (k : String)
  | checkFailed (k : String) (v : Val)
  | notSettings (k : String)
  | notSubscriptable (k : String)
  | notCallable (a : String)
  | noneNotSubscriptable
  | missingObligatory (k : String)
  | entryAsValue (k : String)
  | emptyPath

/-- The `default` attribute of a `Type` when it is set: either a literal
value or a callable.  In Python a callable default receives the `Settings`
object (`default(self)`); here it is a pure function of the item list
visible at call time. -/
inductive DefaultVal where
  | lit (v : Val)
  | call (f : List (String × Val) → Val)

/-- Embedding of the Python class `Type` (the name `Type` is reserved in
Lean): the schema entry for a single setting.  `check = none` embeds
`check=None`; `default = none` embeds `default=None` (no default).
`description` is presentation-only but kept for fidelity. -/
structure Type' where
  description : String
  default : Option DefaultVal := none
  check : Option (Val → Bool) := none
  obligatory : Bool := false
  generator : Val → Val := fun v => v
  parser : Val → Val := fun v => v

/-- One value of a `Model` mapping: a leaf `Type` or a nested `Model`
(`Model.__setitem__` admits exactly these, auto-wrapping raw dicts into
`Model`s, which are therefore represented already wrapped). -/
inductive Entry where
  | ty (t : Type')
  | sub (entries : List (String × Entry))

/-- A `Model` is an ordered mapping from key to `Entry`.  Keys stored in a
real `Model` never contain a dot, because `Model.__setitem__` goes through
`Settings.__setitem__`, which splits dotted keys; theorems assume this
where it matters. -/
abbrev Model := List (String × Entry)

/-- Embedding of the Python class `Settings`: the ordered item mapping, the
`_model` slot of the instance `__dict__` (always assigned by `__init__`),
and `dict` for the remaining underscore-named instance attributes that
`__setattr__` stores into `__dict__`. -/
structure Settings where
  items : List (String × Val)
  _model : Option Model
  dict : List (String × Val)

/-- Embedding of the Python class `TemporaryEntry`: it records the owning
`Settings` and the attribute path built so far.  (Its assignment behaviour
is not needed by the claims; only its falsiness is.) -/
structure TemporaryEntry where
  _d : Settings
  _k : String

/-- `TemporaryEntry.__bool__` returns `False` unconditionally. -/
def TemporaryEntry.toBool (_t : TemporaryEntry) : Bool := false

/-- `TemporaryEntry.__contains__` returns `False` unconditionally. -/
def TemporaryEntry.containsKey (_t : TemporaryEntry) (_k : String) : Bool :=
  false

/-- The result of an attribute read on a `Settings`: a found/computed value,
or a fresh `TemporaryEntry` for a missing, undefaultable name. -/
inductive AttrRead where
  | found (v : Val)
  | temp (t : TemporaryEntry)

/-- Single-segment containment, `OrderedDict.__contains__`: `k in settings`
does not split on dots and reflects only actually stored keys. -/
def Settings.contains (s : Settings) (k : String) : Bool :=
  (lookupKey s.items k).isSome

/-- Truthiness of `self._model` as used in `if self._model and ...`: a bound
model that is an empty mapping is falsy in Python. -/
def modelTruthy (s : Settings) : Bool :=
  match s._model with
  | some m => !m.isEmpty
  | none => false

/-- `k in self._model` (single-segment containment on the bound model). -/
def modelContains (s : Settings) (k : String) : Bool :=
  match s._model with
  | some m => (lookupKey m k).isSome
  | none => false

/-- The segment walk of `Settings.__setitem__`: for every non-final segment
`get_or_create` fetches the nested mapping if present (creating and
inserting an empty `Settings` otherwise) and descends; the final segment is
written with a plain `OrderedDict.__setitem__`.  Descending through a value
that is not a `Settings` raises `TypeError` (`super(Settings, d)` with a
non-`Settings` `d`).  The in-place mutation of nested objects is rendered by
rebuilding the surrounding lists. -/
def setTree : List (String × Val) → List String → Val →
    Except Err (List (String × Val))
  | _, [], _ => .error .emptyPath
  | items, [last], v => .ok (setKey items last v)
  | items, seg :: rest, v => do
      let sub ←
        match lookupKey items seg with
        | none => .ok []
        | some (.vsets l) => .ok l
        | some _ => .error (.notSettings seg)
      let sub' ← setTree sub rest v
      .ok (setKey items seg (.vsets sub'))

/-- `Settings.__setitem__(k, v)`: split `k` on dots and write through
`setTree`.  (The wrap of a raw dict value into `Settings` is the identity
here, raw mappings being represented already wrapped.) -/
def Settings.setitem (s : Settings) (k : String) (v : Val) :
    Except Err Settings := do
  let items' ← setTree s.items (splitPath k) v
  .ok { s with items := items' }

/-- `Settings.__missing__(k)`: if the bound model is truthy and has an entry
for `k` whose `default` is set, compute the value (calling it on the current
items when callable, else taking the literal), store it with `self[k] =
value`, and return it together with the new state and the number of callable
default invocations this read performed; otherwise raise `KeyError`.
When the model entry is a nested `Model`, reading its `.default` attribute
yields a `TemporaryEntry` (stored as `Val.vtemp "default"`), unless that
sub-model literally declares a key `"default"`, in which case Python would
store the schema object itself (`Err.entryAsValue`, not representable). -/
def Settings.missingKey (s : Settings) (k : String) :
    Except Err (Val × Settings × Nat) :=
  match s._model with
  | none => .error (.keyNotFound k)
  | some m =>
      if m.isEmpty then .error (.keyNotFound k)
      else
        match lookupKey m k with
        | none => .error (.keyNotFound k)
        | some (.ty t) =>
            match t.default with
            | none => .error (.keyNotFound k)
            | some (.lit v) => do
                let s' ← s.setitem k v
                .ok (v, s', 0)
            | some (.call f) => do
                let v := f s.items
                let s' ← s.setitem k v
                .ok (v, s', 1)
        | some (.sub m') =>
            if (lookupKey m' "default").isSome then .error (.entryAsValue k)
            else do
              let s' ← s.setitem k (.vtemp "default")
              .ok (.vtemp "default", s', 0)

/-- Resolution of the remaining path segments of `Settings.__getitem__`
below the top level.  Nested `Settings` created by dotted-path writes carry
no `_model`, so a missing nested segment raises the plain `KeyError` of
`__missing__` without default resolution; indexing a non-mapping raises
`TypeError`. -/
def getItemRest : Val → List String → Except Err Val
  | v, [] => .ok v
  | .vsets items, seg :: rest =>
      match lookupKey items seg with
      | some v => getItemRest v rest
      | none => .error (.keyNotFound seg)
  | _, seg :: _ => .error (.notSubscriptable seg)

/-- `Settings.__getitem__(k)`: split `k` on dots and resolve segment by
segment with `OrderedDict.__getitem__`, which invokes `__missing__` (and
hence default resolution and memoization, possibly mutating the store) when
the first segment is absent at the top level.  Returns the value, the
possibly-updated `Settings`, and the number of callable default invocations
performed by this read. -/
def Settings.getitem (s : Settings) (k : String) :
    Except Err (Val × Settings × Nat) :=
  match splitPath k with
  | [] => .error .emptyPath
  | seg :: rest =>
      match lookupKey s.items seg with
      | some v => do
          let r ← getItemRest v rest
          .ok (r, s, 0)
      | none => do
          let (v, s', n) ← s.missingKey seg
          let r ← getItemRest v rest
          .ok (r, s', n)

/-- `Settings.__getattr__(k)`: called by Python only for names not found by
normal attribute lookup (so not for `"_model"` or previously stored
underscore attributes; theorems carry those side conditions).  If `k` is not
a stored key but the truthy bound model declares it, delegate to
`__missing__`; if `k` is simply not stored, return a fresh
`TemporaryEntry`; otherwise return `self[k]`. -/
def Settings.getattr (s : Settings) (k : String) :
    Except Err (AttrRead × Settings × Nat) :=
  if !s.contains k && modelTruthy s && modelContains s k then
    (s.missingKey k).map (fun r => (.found r.1, r.2.1, r.2.2))
  else if !s.contains k then .ok (.temp ⟨s, k⟩, s, 0)
  else (s.getitem k).map (fun r => (.found r.1, r.2.1, r.2.2))

/-- `k[0] == '_'` as tested by `Settings.__setattr__` (on the empty name
Python would raise `IndexError`; attribute syntax never produces it, and the
embedding returns `false` there). -/
def headIsUnderscore (k : String) : Bool :=
  match k.data with
  | [] => false
  | c :: _ => c = '_'

/-- `Settings.__setattr__(k, v)`: names beginning with an underscore are
stored into the instance `__dict__`, every other name is routed through
`self[k] = v` (with the raw-dict wrap, an identity here).  The special slot
`"_model"` of `__dict__` holds the bound `Model` and is modelled by the
separate `_model` field, so theorems about underscore names assume
`k ≠ "_model"`. -/
def Settings.setattr (s : Settings) (k : String) (v : Val) :
    Except Err Settings :=
  if headIsUnderscore k then .ok { s with dict := setKey s.dict k v }
  else s.setitem k v

/-- Dotted-path item lookup on a `Model` (`model[k]` goes through the
inherited `Settings.__getitem__`).  A `Model`'s own `_model` is `None`, so a
missing segment raises the plain `KeyError` of `__missing__`; indexing into
a leaf `Type` object raises `TypeError`. -/
def modelGetSegs : Model → List String → Except Err Entry
  | _, [] => .error .emptyPath
  | m, k :: rest =>
      match lookupKey m k with
      | none => .error (.keyNotFound k)
      | some e =>
          match rest with
          | [] => .ok e
          | _ :: _ =>
              match e with
              | .sub m' => modelGetSegs m' rest
              | .ty _ => .error (.notSubscriptable k)

/-- `d[k].check` as a callable: a leaf `Type` with `check=None` gives
`None(v)` (`TypeError: not callable`); on a nested `Model` entry the
attribute read yields a `TemporaryEntry` (or a schema object if the
sub-model declares a key named like the attribute) — in every such case
calling it raises `TypeError`, embedded uniformly as `notCallable`. -/
def entryCheckFn : Entry → Except Err (Val → Bool)
  | .ty t =>
      match t.check with
      | some c => .ok c
      | none => .error (.notCallable "check")
  | .sub _ => .error (.notCallable "check")

/-- `model[k].parser` as a callable; same `TypeError` analysis as
`entryCheckFn` for nested `Model` entries. -/
def entryParserFn : Entry → Except Err (Val → Val)
  | .ty t => .ok t.parser
  | .sub _ => .error (.notCallable "parser")

/-- `model[k].generator` as a callable; same `TypeError` analysis as
`entryCheckFn` for nested `Model` entries. -/
def entryGenFn : Entry → Except Err (Val → Val)
  | .ty t => .ok t.generator
  | .sub _ => .error (.notCallable "generator")

/-- Embedding of `check_settings(s, d)`: for every key/value stored in `s`,
in insertion order, apply `d[k].check`; on the first failing value raise the
check-failure `TypeError` naming the key and the value; return `True` when
every stored value passes.  Takes the item list of the `Settings`. -/
def check_settings (s : List (String × Val)) (d : Model) : Except Err Bool :=
  match s with
  | [] => .ok true
  | (k, v) :: rest => do
      let e ← modelGetSegs d (splitPath k)
      let c ← entryCheckFn e
      if c v then check_settings rest d else .error (.checkFailed k v)

/-- Embedding of the predicate `is_settings`: an `isinstance` test against
`Settings` (true exactly for nested-`Settings` values). -/
def is_settings : Val → Bool
  | .vsets _ => true
  | _ => false

/-- Embedding of the predicate built by `conforms(m, description)` (the
description only affects the display string and is dropped): not a
`Settings` gives `False`, otherwise the result of `check_settings` — which
returns `True` or raises — is propagated. -/
def conforms (m : Model) : Val → Except Err Bool
  | .vsets items => check_settings items m
  | _ => .ok false

/-- The key iteration of `parse_to_model`: for each external key/value in
order, raise `KeyError` if the key is not in the model (single-segment
containment), else store `model[k].parser(v)` with `s[k] = ...`. -/
def parseGo (model : Model) :
    List (String × Val) → List (String × Val) →
    Except Err (List (String × Val))
  | items, [] => .ok items
  | items, (k, v) :: rest => do
      if (lookupKey model k).isSome then
        let e ← modelGetSegs model (splitPath k)
        let p ← entryParserFn e
        let items' ← setTree items (splitPath k) (p v)
        parseGo model items' rest
      else .error (.keyNotInModel k)

/-- Embedding of `parse_to_model(model, data)`: a new `Settings` bound to
`model`, populated by `parseGo` from the external ordered mapping. -/
def parse_to_model (model : Model) (data : List (String × Val)) :
    Except Err Settings := do
  let items ← parseGo model [] data
  .ok ⟨items, some model, []⟩

/-- The per-item generation of `generate_settings`.  The source tests
`hasattr(settings, '_model')`, which is true for every `Settings` because
`__init__` always assigns `_model`; so the model branch is always taken for
a `Settings`, and when `_model` is `None` the subscript `settings._model[k]`
raises `TypeError` (`'NoneType' object is not subscriptable`) on the first
item — the documented fall back to `str` is unreachable for `Settings`
arguments. -/
def genGo : Option Model → List (String × Val) →
    Except Err (List (String × Val))
  | _, [] => .ok []
  | none, _ :: _ => .error .noneNotSubscriptable
  | some m, (k, v) :: rest => do
      let e ← modelGetSegs m (splitPath k)
      let g ← entryGenFn e
      let out ← genGo (some m) rest
      .ok ((k, g v) :: out)

/-- Embedding of `generate_settings(settings)` applied to a `Settings`
argument (see `genGo` for why the `hasattr` test always selects the model
branch there). -/
def generate_settings (s : Settings) : Except Err (List (String × Val)) :=
  genGo s._model s.items

mutual

/-- Modelled from the spec: the per-entry materialization step of
`apply_defaults_and_check`, which is named throughout the spec but absent
from src/ (no definition, caller or test of it ships in the repository).
Following the spec's words: given the value currently stored under the key
(or `none` when missing) — if the entry is a nested `Model`, an empty
`Settings` is inserted when missing and the sub-pair is recursed into,
requiring any existing value to already be a `Settings` (`TypeError`
otherwise); if missing and the entry is obligatory, fail with
`MissingObligatoryError` naming the key; if missing and not obligatory,
insert the literal default (callable defaults are NOT invoked in this eager
pass, and a missing key with no literal default stays absent). -/
def applyEntrySpec : String → Entry → Option Val → Except Err (Option Val)
  | k, .ty t, none =>
      if t.obligatory then .error (.missingObligatory k)
      else
        match t.default with
        | some (.lit v) => .ok (some v)
        | _ => .ok none
  | _, .ty _, some v => .ok (some v)
  | _, .sub m', none => do
      let l ← applyModelSpec [] m'
      .ok (some (.vsets l))
  | _, .sub m', some (.vsets l) => do
      let l' ← applyModelSpec l m'
      .ok (some (.vsets l'))
  | k, .sub _, some _ => .error (.notSettings k)

/-- Modelled from the spec: the eager walk of `apply_defaults_and_check`
over every key declared in the model (not just those present in the
settings), in model order, materializing values via `applyEntrySpec`. -/
def applyModelSpec : List (String × Val) → Model →
    Except Err (List (String × Val))
  | items, [] => .ok items
  | items, (k, e) :: rest => do
      let r ← applyEntrySpec k e (lookupKey items k)
      let items' :=
        match r with
        | some v => setKey items k v
        | none => items
      applyModelSpec items' rest

end

mutual

/-- Modelled from the spec: the post-materialization check pass of
`apply_defaults_and_check` for one entry — a leaf's check predicate is
applied to the stored value when both exist, failing with the
check-failure error on the first failure; nested entries recurse. -/
def checkEntrySpec : String → Entry → Option Val → Except Err Unit
  | _, .ty _, none => .ok ()
  | k, .ty t, some v =>
      match t.check with
      | some c => if c v then .ok () else .error (.checkFailed k v)
      | none => .ok ()
  | _, .sub _, none => .ok ()
  | _, .sub m', some (.vsets l) => checkModelSpec l m'
  | k, .sub _, some _ => .error (.notSettings k)

/-- Modelled from the spec: the check pass over every declared key, in
model order. -/
def checkModelSpec : List (String × Val) → Model → Except Err Unit
  | _, [] => .ok ()
  | items, (k, e) :: rest => do
      checkEntrySpec k e (lookupKey items k)
      checkModelSpec items rest

end

/-- Modelled from the spec: `apply_defaults_and_check(settings, model)` —
the eager defaulting-and-validating pass, absent from src/: materialize
every declared key (`applyModelSpec`), then apply the leaf checks
(`checkModelSpec`), returning a new, fully populated `Settings`. -/
def apply_defaults_and_check (s : Settings) (m : Model) :
    Except Err Settings := do
  let items' ← applyModelSpec s.items m
  checkModelSpec items' m
  .ok { s with items := items' }

mutual

/-- Well-formedness of an embedded schema entry: nested models are
well-formed. -/
def entryWf : Entry → Bool
  | .ty _ => true
  | .sub m' => modelWf m'

/-- Well-formedness of an embedded `Model`: at every level the keys are
distinct, as they necessarily are for a Python dict.  (The embedding's
association lists admit duplicate keys that no real `Model` can exhibit.) -/
def modelWf : Model → Bool
  | [] => true
  | (k, e) :: rest =>
      entryWf e && !(rest.any (fun p => p.1 == k)) && modelWf rest

end

/-- `ObligAt m k` says the schema tree `m` declares, at some depth, the key
`k` with a leaf `Type` entry marked obligatory. -/
inductive ObligAt : Model → String → Prop where
  | here {m : Model} {k : String} {t : Type'} :
      (k, Entry.ty t) ∈ m → t.obligatory = true → ObligAt m k
  | there {m : Model} {k k' : String} {m' : Model} :
      (k', Entry.sub m') ∈ m → ObligAt m' k → ObligAt m k

theorem lookupKey_setKey_self {α : Type} (l : List (String × α)) (k : String)
    (v : α) : lookupKey (setKey l k v) k = some v := by
  induction l with
  | nil => simp [setKey, lookupKey]
  | cons p rest ih =>
      obtain ⟨k', v'⟩ := p
      by_cases h : k' = k
      · simp [setKey, lookupKey, h]
      · simp [setKey, lookupKey, h, ih]

theorem lookupKey_setKey_ne {α : Type} (l : List (String × α))
    (k k' : String) (v : α) (h : k' ≠ k) :
    lookupKey (setKey l k v) k' = lookupKey l k' := by
  have hk : ¬k = k' := fun h' => h h'.symm
  induction l with
  | nil => simp [setKey, lookupKey, hk]
  | cons p rest ih =>
      obtain ⟨k₀, v₀⟩ := p
      by_cases h0 : k₀ = k
      · subst h0
        simp [setKey, lookupKey, hk]
      · simp [setKey, lookupKey, h0, ih]

theorem setKey_of_not_mem {α : Type} (l : List (String × α)) (k : String)
    (v : α) (h : lookupKey l k = none) : setKey l k v = l ++ [(k, v)] := by
  induction l with
  | nil => simp [setKey]
  | cons p rest ih =>
      obtain ⟨k₀, v₀⟩ := p
      by_cases h0 : k₀ = k
      · simp [lookupKey, h0] at h
      · simp [lookupKey, h0] at h
        simp [setKey, h0, ih h]

theorem lookupKey_append_right {α : Type} (l l' : List (String × α))
    (k : String) (h : lookupKey l k = none) :
    lookupKey (l ++ l') k = lookupKey l' k := by
  induction l with
  | nil => simp
  | cons p rest ih =>
      obtain ⟨k₀, v₀⟩ := p
      by_cases h0 : k₀ = k
      · simp [lookupKey, h0] at h
      · simp [lookupKey, h0] at h ⊢
        exact ih h

theorem lookupKey_mem {α : Type} {l : List (String × α)} {k : String}
    {e : α} (h : lookupKey l k = some e) : (k, e) ∈ l := by
  induction l with
  | nil => simp [lookupKey] at h
  | cons p rest ih =>
      obtain ⟨k₀, v₀⟩ := p
      by_cases h0 : k₀ = k
      · subst h0
        simp [lookupKey] at h
        simp [h]
      · simp [lookupKey, h0] at h
        simp [ih h]

theorem isEmpty_false_of_lookup_some {α : Type} {l : List (String × α)}
    {k : String} {e : α} (h : lookupKey l k = some e) : l.isEmpty = false := by
  cases l with
  | nil => simp [lookupKey] at h
  | cons p rest => simp [List.isEmpty]

theorem contains_false_lookup_none {s : Settings} {k : String}
    (h : s.contains k = false) : lookupKey s.items k = none := by
  unfold Settings.contains at h
  cases hl : lookupKey s.items k with
  | none => rfl
  | some v => rw [hl] at h; simp at h

/-- C2: For an empty `Settings`, after `set("a.b.c", 3)` the intermediate
nodes are auto-created as empty `Settings`: afterwards `"a" in s` is true,
`get("a.b.c")` returns `3`, and `get("a.b")` is a `Settings` containing
only the key `"c"`. -/
theorem dotted_path_creation :
    Settings.setitem ⟨[], none, []⟩ "a.b.c" (.vint 3) =
      .ok ⟨[("a", .vsets [("b", .vsets [("c", .vint 3)])])], none, []⟩ ∧
    Settings.contains
      ⟨[("a", .vsets [("b", .vsets [("c", .vint 3)])])], none, []⟩ "a"
      = true ∧
    Settings.getitem
      ⟨[("a", .vsets [("b", .vsets [("c", .vint 3)])])], none, []⟩ "a.b.c"
      = .ok (.vint 3,
          ⟨[("a", .vsets [("b", .vsets [("c", .vint 3)])])], none, []⟩, 0) ∧
    Settings.getitem
      ⟨[("a", .vsets [("b", .vsets [("c", .vint 3)])])], none, []⟩ "a.b"
      = .ok (.vsets [("c", .vint 3)],
          ⟨[("a", .vsets [("b", .vsets [("c", .vint 3)])])], none, []⟩, 0) :=
  ⟨rfl, rfl, rfl, rfl⟩

/-- C6: the claim (and the function's own docstring) says a `Settings`
with no bound `Model` falls back to stringifying each value; in fact the
branch is selected by `hasattr(settings, '_model')`, which is true for
every `Settings` because `__init__` always assigns `_model`, so on the
first item the code evaluates `None[k]` and raises `TypeError` instead of
falling back. -/
theorem generate_settings_no_model_bug :
    generate_settings ⟨[("a", .vint 1)], none, []⟩ =
      .error .noneNotSubscriptable := rfl

/-- C9: for an empty `Settings` with no bound `Model`, an attribute read of
a missing name returns a `TemporaryEntry`; that value is boolean-false, its
membership tests are false, and the read stores nothing — the key is still
not contained afterwards.  (The hypothesis exempts the reserved instance
slot `"_model"`, the one name on an empty `Settings` that normal attribute
lookup resolves without invoking `__getattr__`.) -/
theorem temporary_entry_falsy (k : String) (hk : k ≠ "_model") :
    Settings.getattr ⟨[], none, []⟩ k =
      .ok (.temp ⟨⟨[], none, []⟩, k⟩, ⟨[], none, []⟩, 0) ∧
    TemporaryEntry.toBool ⟨⟨[], none, []⟩, k⟩ = false ∧
    (∀ k2, TemporaryEntry.containsKey ⟨⟨[], none, []⟩, k⟩ k2 = false) ∧
    Settings.contains ⟨[], none, []⟩ k = false :=
  ⟨rfl, rfl, fun _ => rfl, rfl⟩

theorem temporary_entry_falsy_witness :
    Settings.getattr ⟨[], none, []⟩ "x" =
      .ok (.temp ⟨⟨[], none, []⟩, "x"⟩, ⟨[], none, []⟩, 0) ∧
    TemporaryEntry.toBool ⟨⟨[], none, []⟩, "x"⟩ = false ∧
    (∀ k2, TemporaryEntry.containsKey ⟨⟨[], none, []⟩, "x"⟩ k2 = false) ∧
    Settings.contains ⟨[], none, []⟩ "x" = false :=
  temporary_entry_falsy "x" (by decide)

/-- C10 fails as stated: when the underscore name is already a stored
mapping key (put there by item assignment), attribute assignment stores the
new value as an instance attribute and leaves the mapping unchanged — so
the name is still a contained key afterwards, contradicting the claim's
"afterwards the name is not a contained key of s". -/
theorem setattr_underscore_contained_counterexample :
    Settings.setattr ⟨[("_x", .vint 1)], none, []⟩ "_x" (.vint 2) =
      .ok ⟨[("_x", .vint 1)], none, [("_x", .vint 2)]⟩ ∧
    Settings.contains ⟨[("_x", .vint 1)], none, [("_x", .vint 2)]⟩ "_x"
      = true :=
  ⟨rfl, rfl⟩

/-- C10 (amended): for every `Settings` and every name beginning with an
underscore (the reserved `"_model"` slot, which holds the bound model and is
modelled by a separate field, excepted), attribute assignment stores the
value as an instance attribute and leaves the key-value mapping unchanged:
every previously stored key still maps to its previous value, and the name
is a contained key afterwards exactly if it already was one before. -/
theorem setattr_underscore_frame (s : Settings) (k : String) (v : Val)
    (h1 : headIsUnderscore k = true) (h2 : k ≠ "_model") :
    ∃ s', s.setattr k v = .ok s' ∧
      s'.items = s.items ∧
      s'._model = s._model ∧
      lookupKey s'.dict k = some v ∧
      (∀ k2, lookupKey s'.items k2 = lookupKey s.items k2) ∧
      s'.contains k = s.contains k := by
  refine ⟨{ s with dict := setKey s.dict k v }, ?_, rfl, rfl, ?_, ?_, rfl⟩
  · unfold Settings.setattr
    rw [h1]
    simp
  · exact lookupKey_setKey_self s.dict k v
  · intro k2
    rfl

theorem setattr_underscore_frame_witness :
    ∃ s', Settings.setattr ⟨[("a", .vint 7)], none, []⟩ "_x" (.vint 1)
        = .ok s' ∧
      s'.items = Settings.items ⟨[("a", .vint 7)], none, []⟩ ∧
      s'._model = Settings._model ⟨[("a", .vint 7)], none, []⟩ ∧
      lookupKey s'.dict "_x" = some (.vint 1) ∧
      (∀ k2, lookupKey s'.items k2 =
        lookupKey (Settings.items ⟨[("a", .vint 7)], none, []⟩) k2) ∧
      s'.contains "_x" = Settings.contains ⟨[("a", .vint 7)], none, []⟩ "_x" :=
  setattr_underscore_frame ⟨[("a", .vint 7)], none, []⟩ "_x" (.vint 1)
    (by decide) (by decide)

/-- `check_settings` never returns `False`: it returns `True` or raises. -/
theorem check_settings_ne_ok_false (s : List (String × Val)) (d : Model) :
    check_settings s d ≠ .ok false := by
  induction s with
  | nil => simp [check_settings]
  | cons p rest ih =>
      obtain ⟨k, v⟩ := p
      unfold check_settings
      cases h1 : modelGetSegs d (splitPath k) with
      | error e => simp [Bind.bind, Except.bind]
      | ok e =>
          cases h2 : entryCheckFn e with
          | error e' => simp [Bind.bind, Except.bind, h2]
          | ok c =>
              by_cases hc : c v
              · simpa [Bind.bind, Except.bind, h2, hc] using ih
              · simp [Bind.bind, Except.bind, h2, hc]

/-- C8 fails as stated: on a `Settings` containing an entry that fails its
check, the predicate built by `conforms` propagates the check-failure
exception from `check_settings` instead of returning `False`. -/
theorem conforms_raises_counterexample :
    conforms
      [("x", .ty { description := "non-negative integer",
                   check := some (fun v =>
                     match v with
                     | .vint n => decide (0 ≤ n)
                     | _ => false) })]
      (.vsets [("x", .vint (-1))])
      = .error (.checkFailed "x" (.vint (-1))) := rfl

/-- C8 (amended): the predicate built by `conforms(m, description)` returns
`False` exactly when the value is not a `Settings`; applied to a `Settings`
it either returns `True` (every entry passes) or raises the error coming
from `check_settings` (a failing check or an undeclared key) — it never
returns `False` for a `Settings`. -/
theorem conforms_false_iff_not_settings (m : Model) (v : Val) :
    conforms m v = .ok false ↔ is_settings v = false := by
  cases v with
  | vsets items =>
      simp only [conforms, is_settings]
      constructor
      · intro h
        exact absurd h (check_settings_ne_ok_false items m)
      · intro h
        cases h
  | vint n => simp [conforms, is_settings]
  | vstr s => simp [conforms, is_settings]
  | vtemp k => simp [conforms, is_settings]

/-- The value a set default denotes at resolution time, in the words of the
claim: invoke it on the settings if callable, else take the literal. -/
def DefaultVal.value : DefaultVal → List (String × Val) → Val
  | .lit v, _ => v
  | .call f, items => f items

/-- How many callable-default invocations resolving this default performs. -/
def DefaultVal.cost : DefaultVal → Nat
  | .lit _ => 0
  | .call _ => 1

theorem missingKey_resolves {s : Settings} {m : Model} {k : String}
    {t : Type'} {d : DefaultVal}
    (hseg : splitPath k = [k]) (hm : s._model = some m)
    (hk : lookupKey m k = some (.ty t)) (hd : t.default = some d) :
    s.missingKey k =
      .ok (d.value s.items,
        { s with items := setKey s.items k (d.value s.items) }, d.cost) := by
  have hne : m.isEmpty = false := isEmpty_false_of_lookup_some hk
  unfold Settings.missingKey
  rw [hm]
  simp only [hne, Bool.false_eq_true, if_false]
  simp only [hk, hd]
  cases d with
  | lit x =>
      simp [Settings.setitem, hseg, setTree, DefaultVal.value,
        DefaultVal.cost, Bind.bind, Except.bind]
      exact hm
  | call f =>
      simp [Settings.setitem, hseg, setTree, DefaultVal.value,
        DefaultVal.cost, Bind.bind, Except.bind]
      exact hm

/-- C1: for a `Settings` bound to a `Model`, a single-segment key absent
from the store whose model entry is a `Type` with a set default: the first
`get(k)` or attribute read computes the value (calling the default on the
settings if callable, else taking the literal), stores it under `k`, and
returns it; a second read — by either route — returns the stored value with
the state unchanged and performs no further default invocation, so a
callable default is invoked exactly once across all reads.  (`hdict` and
`hnm` record that `k` is not an instance attribute, so the Python attribute
read really reaches `__getattr__`.) -/
theorem lazy_default_memoized (s : Settings) (m : Model) (k : String)
    (t : Type') (d : DefaultVal)
    (hseg : splitPath k = [k])
    (habs : s.contains k = false)
    (hm : s._model = some m)
    (hk : lookupKey m k = some (.ty t))
    (hd : t.default = some d)
    (hdict : lookupKey s.dict k = none)
    (hnm : k ≠ "_model") :
    s.getitem k =
      .ok (d.value s.items,
        { s with items := setKey s.items k (d.value s.items) }, d.cost) ∧
    Settings.getitem
      { s with items := setKey s.items k (d.value s.items) } k =
      .ok (d.value s.items,
        { s with items := setKey s.items k (d.value s.items) }, 0) ∧
    s.getattr k =
      .ok (.found (d.value s.items),
        { s with items := setKey s.items k (d.value s.items) }, d.cost) ∧
    Settings.getattr
      { s with items := setKey s.items k (d.value s.items) } k =
      .ok (.found (d.value s.items),
        { s with items := setKey s.items k (d.value s.items) }, 0) := by
  have hlook : lookupKey s.items k = none := contains_false_lookup_none habs
  have hne : m.isEmpty = false := isEmpty_false_of_lookup_some hk
  have hmiss := missingKey_resolves hseg hm hk hd
  have hlook2 : lookupKey (setKey s.items k (d.value s.items)) k
      = some (d.value s.items) := lookupKey_setKey_self s.items k _
  have hget1 : s.getitem k =
      .ok (d.value s.items,
        { s with items := setKey s.items k (d.value s.items) }, d.cost) := by
    unfold Settings.getitem
    rw [hseg]
    simp [hlook, hmiss, Bind.bind, Except.bind, getItemRest]
  have hget2 : Settings.getitem
      { s with items := setKey s.items k (d.value s.items) } k =
      .ok (d.value s.items,
        { s with items := setKey s.items k (d.value s.items) }, 0) := by
    unfold Settings.getitem
    rw [hseg]
    simp [hlook2, Bind.bind, Except.bind, getItemRest]
  have ht : modelTruthy s = true := by
    unfold modelTruthy
    rw [hm]
    simp [hne]
  have hmc : modelContains s k = true := by
    simp only [modelContains, hm, hk, Option.isSome_some]
  have hc2 : Settings.contains
      { s with items := setKey s.items k (d.value s.items) } k = true := by
    unfold Settings.contains
    simp [hlook2]
  refine ⟨hget1, hget2, ?_, ?_⟩
  · unfold Settings.getattr
    simp [habs, ht, hmc, hmiss, Except.map]
  · unfold Settings.getattr
    simp [hc2, hget2, Except.map]

/-- A concrete callable default for the C1 witness: one more than the
sibling entry "base". -/
def exampleDefaultFn (items : List (String × Val)) : Val :=
  match lookupKey items "base" with
  | some (.vint b) => .vint (b + 1)
  | _ => .vint 0

/-- The concrete `Type` of the C1 witness. -/
def exampleType : Type' :=
  { description := "computed", default := some (.call exampleDefaultFn) }

/-- The concrete `Model` of the C1 witness. -/
def exampleModel : Model := [("n", .ty exampleType)]

/-- The concrete bound `Settings` of the C1 witness, holding only "base". -/
def exampleSettings : Settings :=
  ⟨[("base", .vint 2)], some exampleModel, []⟩

theorem lazy_default_memoized_witness :
    Settings.getitem exampleSettings "n" =
      .ok (.vint 3,
        ⟨[("base", .vint 2), ("n", .vint 3)], some exampleModel, []⟩, 1) := by
  have h := lazy_default_memoized exampleSettings exampleModel "n"
    exampleType (.call exampleDefaultFn)
    rfl rfl rfl rfl rfl rfl (by decide)
  exact h.1

theorem check_settings_cons_eq {k : String} {v : Val}
    {rest : List (String × Val)} {d : Model} {t : Type'} {c : Val → Bool}
    (h1 : modelGetSegs d (splitPath k) = .ok (.ty t))
    (h2 : t.check = some c) :
    check_settings ((k, v) :: rest) d =
      if c v then check_settings rest d else .error (.checkFailed k v) := by
  conv_lhs => rw [check_settings]
  simp only [h1, Bind.bind, Except.bind, entryCheckFn, h2]

theorem check_settings_all_pass (d : Model) :
    ∀ s : List (String × Val),
    (∀ p ∈ s, ∃ t c, modelGetSegs d (splitPath p.1) = .ok (.ty t) ∧
      t.check = some c ∧ c p.2 = true) →
    check_settings s d = .ok true := by
  intro s
  induction s with
  | nil => intro _; rfl
  | cons p rest ih =>
      intro h
      obtain ⟨k0, v0⟩ := p
      obtain ⟨t, c, h1, h2, h3⟩ := h _ (List.mem_cons_self _ _)
      rw [check_settings_cons_eq h1 h2, h3]
      simp only [if_true]
      exact ih (fun q hq => h q (List.mem_cons_of_mem _ hq))

theorem check_settings_first_fail (d : Model) :
    ∀ (pre : List (String × Val)) (k : String) (v : Val)
      (post : List (String × Val)),
    (∀ p ∈ pre, ∃ t c, modelGetSegs d (splitPath p.1) = .ok (.ty t) ∧
      t.check = some c ∧ c p.2 = true) →
    (∃ t c, modelGetSegs d (splitPath k) = .ok (.ty t) ∧
      t.check = some c ∧ c v = false) →
    check_settings (pre ++ (k, v) :: post) d =
      .error (.checkFailed k v) := by
  intro pre
  induction pre with
  | nil =>
      intro k v post _ hf
      obtain ⟨t, c, h1, h2, h3⟩ := hf
      rw [List.nil_append, check_settings_cons_eq h1 h2, h3]
      simp only [Bool.false_eq_true, if_false]
  | cons p rest ih =>
      intro k v post hpre hf
      obtain ⟨k0, v0⟩ := p
      obtain ⟨t, c, h1, h2, h3⟩ := hpre _ (List.mem_cons_self _ _)
      rw [List.cons_append, check_settings_cons_eq h1 h2, h3]
      simp only [if_true]
      exact ih k v post (fun q hq => hpre q (List.mem_cons_of_mem _ hq)) hf

/-- C4: `check_settings(s, m)` applies to each key present in `s` (in
insertion order) the check predicate of the corresponding entry of `m`; on
the first failing value it raises the check-failure error naming the
offending key and value (short-circuiting — later keys are not examined),
and when every present value passes it succeeds, returning `True`.  The
hypothesis records the claim's presupposition that every present key has a
corresponding leaf entry carrying a check predicate. -/
theorem check_settings_short_circuit (s : List (String × Val)) (d : Model)
    (hty : ∀ p ∈ s, ∃ t c, modelGetSegs d (splitPath p.1) = .ok (.ty t) ∧
      t.check = some c) :
    ((∀ p ∈ s, ∀ t c, modelGetSegs d (splitPath p.1) = .ok (.ty t) →
        t.check = some c → c p.2 = true) →
      check_settings s d = .ok true) ∧
    (∀ pre k v post, s = pre ++ (k, v) :: post →
      (∀ p ∈ pre, ∀ t c, modelGetSegs d (splitPath p.1) = .ok (.ty t) →
        t.check = some c → c p.2 = true) →
      (∀ t c, modelGetSegs d (splitPath k) = .ok (.ty t) →
        t.check = some c → c v = false) →
      check_settings s d = .error (.checkFailed k v)) := by
  constructor
  · intro hpass
    refine check_settings_all_pass d s (fun p hp => ?_)
    obtain ⟨t, c, h1, h2⟩ := hty p hp
    exact ⟨t, c, h1, h2, hpass p hp t c h1 h2⟩
  · intro pre k v post hs hpre hfail
    subst hs
    refine check_settings_first_fail d pre k v post (fun p hp => ?_) ?_
    · obtain ⟨t, c, h1, h2⟩ := hty p (List.mem_append_left _ hp)
      exact ⟨t, c, h1, h2, hpre p hp t c h1 h2⟩
    · obtain ⟨t, c, h1, h2⟩ := hty (k, v)
        (List.mem_append_right _ (List.mem_cons_self _ _))
      exact ⟨t, c, h1, h2, hfail t c h1 h2⟩

/-- The non-negative-integer check of the C4 witness. -/
def nonnegCheck : Val → Bool := fun v =>
  match v with
  | .vint n => decide (0 ≤ n)
  | _ => false

/-- The `Type` of the C4 witness. -/
def nonnegType : Type' :=
  { description := "non-negative integer", check := some nonnegCheck }

/-- The `Model` of the C4 witness. -/
def nonnegModel : Model := [("x", .ty nonnegType)]

theorem check_settings_short_circuit_witness :
    check_settings [("x", .vint (-1))] nonnegModel =
      .error (.checkFailed "x" (.vint (-1))) := by
  refine (check_settings_short_circuit [("x", Val.vint (-1))] nonnegModel
    ?_).2 [] "x" (.vint (-1)) [] rfl ?_ ?_
  · intro p hp
    simp only [List.mem_singleton] at hp
    subst hp
    exact ⟨nonnegType, nonnegCheck, rfl, rfl⟩
  · intro p hp
    simp at hp
  · intro t c h1 h2
    have ht : (Except.ok (Entry.ty nonnegType) : Except Err Entry)
        = .ok (.ty t) := h1
    cases ht
    have hc : (some nonnegCheck : Option (Val → Bool)) = some c := h2
    cases hc
    rfl

/-- What `parse_to_model` stores for one external item: the entry's parser
applied to the external value (the identity when the key resolves to
anything but a leaf `Type`, a case excluded by the theorems' hypotheses). -/
def parsedOf (model : Model) (p : String × Val) : Val :=
  match lookupKey model p.1 with
  | some (.ty t) => t.parser p.2
  | _ => p.2

theorem parseGo_cons_ok {model : Model} {k : String} {v : Val}
    {rest items : List (String × Val)} {t : Type'}
    (hk : lookupKey model k = some (.ty t)) (hseg : splitPath k = [k]) :
    parseGo model items ((k, v) :: rest) =
      parseGo model (setKey items k (t.parser v)) rest := by
  conv_lhs => rw [parseGo]
  simp only [hk, hseg, Option.isSome_some, if_true, modelGetSegs,
    entryParserFn, setTree, Bind.bind, Except.bind]

theorem parseGo_undeclared {model : Model} {k : String} {v : Val}
    {rest items : List (String × Val)}
    (hk : lookupKey model k = none) :
    parseGo model items ((k, v) :: rest) = .error (.keyNotInModel k) := by
  rw [parseGo]
  simp [hk]

theorem parseGo_ok (model : Model) :
    ∀ (data items : List (String × Val)),
    (∀ p ∈ data, ∃ t, lookupKey model p.1 = some (.ty t) ∧
      splitPath p.1 = [p.1]) →
    (∀ p ∈ data, lookupKey items p.1 = none) →
    (data.map Prod.fst).Nodup →
    parseGo model items data =
      .ok (items ++ data.map (fun p => (p.1, parsedOf model p))) := by
  intro data
  induction data with
  | nil => intro items _ _ _; simp [parseGo]
  | cons p rest ih =>
      intro items hty hfresh hnd
      obtain ⟨k, v⟩ := p
      obtain ⟨t, hk, hseg⟩ := hty _ (List.mem_cons_self _ _)
      rw [parseGo_cons_ok hk hseg]
      rw [setKey_of_not_mem items k (t.parser v)
        (hfresh _ (List.mem_cons_self _ _))]
      have hknr : ∀ q ∈ rest, q.1 ≠ k := by
        intro q hq hqk
        have : k ∈ rest.map Prod.fst := by
          rw [← hqk]
          exact List.mem_map_of_mem _ hq
        simp only [List.map_cons, List.nodup_cons] at hnd
        exact hnd.1 this
      have hfresh' : ∀ q ∈ rest, lookupKey (items ++ [(k, t.parser v)]) q.1
          = none := by
        intro q hq
        rw [lookupKey_append_right _ _ _ (hfresh _ (List.mem_cons_of_mem _ hq))]
        simp [lookupKey, Ne.symm (hknr q hq)]
      have hnd' : (rest.map Prod.fst).Nodup := by
        simp only [List.map_cons, List.nodup_cons] at hnd
        exact hnd.2
      rw [ih _ (fun q hq => hty q (List.mem_cons_of_mem _ hq)) hfresh' hnd']
      have hpv : parsedOf model (k, v) = t.parser v := by
        unfold parsedOf
        simp [hk]
      simp [hpv, List.append_assoc]

theorem lookupKey_map_parsed (model : Model) :
    ∀ (data : List (String × Val)) (p : String × Val), p ∈ data →
    (data.map Prod.fst).Nodup →
    lookupKey (data.map (fun q => (q.1, parsedOf model q))) p.1 =
      some (parsedOf model p) := by
  intro data
  induction data with
  | nil => intro p hp; simp at hp
  | cons q rest ih =>
      intro p hp hnd
      simp only [List.map_cons, List.nodup_cons] at hnd
      rcases List.mem_cons.mp hp with hpq | hpr
      · subst hpq
        simp [lookupKey]
      · have hne : q.1 ≠ p.1 := by
          intro h
          exact hnd.1 (h ▸ List.mem_map_of_mem _ hpr)
        simp only [List.map_cons, lookupKey, hne, if_false]
        exact ih p hpr hnd.2

theorem parseGo_fails_early (model : Model) (k : String) (v : Val)
    (post : List (String × Val)) (hk : lookupKey model k = none) :
    ∀ (pre items : List (String × Val)),
    (∀ p ∈ pre, ∃ t, lookupKey model p.1 = some (.ty t) ∧
      splitPath p.1 = [p.1]) →
    parseGo model items (pre ++ (k, v) :: post) =
      .error (.keyNotInModel k) := by
  intro pre
  induction pre with
  | nil =>
      intro items _
      rw [List.nil_append]
      exact parseGo_undeclared hk
  | cons q rest ih =>
      intro items hpre
      obtain ⟨k0, v0⟩ := q
      obtain ⟨t, hk0, hseg0⟩ := hpre _ (List.mem_cons_self _ _)
      rw [List.cons_append, parseGo_cons_ok hk0 hseg0]
      exact ih _ (fun p hp => hpre p (List.mem_cons_of_mem _ hp))

/-- C5: `parse_to_model(m, d)` raises `KeyError` naming the first key of
`d` not declared in `m`; otherwise it returns a new `Settings` bound to `m`
in which each key `k` of `d` is stored as `m[k].parser(d[k])` (keys in the
order of `d`).  Hypotheses record the invariants of real schemas: keys
stored in a `Model` are single segments (its `__setitem__` splits dotted
keys) and map to leaf `Type` entries carrying parsers, and the keys of an
external mapping are distinct. -/
theorem parse_to_model_spec (model : Model) (data : List (String × Val))
    (hm : ∀ q ∈ model, splitPath q.1 = [q.1])
    (hty : ∀ p ∈ data, ∀ e, lookupKey model p.1 = some e → ∃ t, e = .ty t) :
    (∀ pre k v post, data = pre ++ (k, v) :: post →
        (∀ p ∈ pre, (lookupKey model p.1).isSome) →
        lookupKey model k = none →
        parse_to_model model data = .error (.keyNotInModel k)) ∧
    ((∀ p ∈ data, (lookupKey model p.1).isSome) →
        (data.map Prod.fst).Nodup →
        ∃ s', parse_to_model model data = .ok s' ∧
          s'._model = some model ∧
          s'.items.map Prod.fst = data.map Prod.fst ∧
          ∀ p ∈ data, ∀ t, lookupKey model p.1 = some (.ty t) →
            lookupKey s'.items p.1 = some (t.parser p.2)) := by
  have hres : ∀ p : String × Val, ∀ e, lookupKey model p.1 = some e →
      splitPath p.1 = [p.1] := by
    intro p e he
    exact hm _ (lookupKey_mem he)
  constructor
  · intro pre k v post hs hpre hk
    subst hs
    unfold parse_to_model
    rw [parseGo_fails_early model k v post hk pre []]
    · rfl
    · intro p hp
      cases he : lookupKey model p.1 with
      | none =>
          exact absurd (he ▸ hpre p hp) (by simp)
      | some e =>
          obtain ⟨t, ht⟩ := hty p (List.mem_append_left _ hp) e he
          refine ⟨t, ?_, hres p e he⟩
          rw [← ht]
  · intro hall hnd
    have hty' : ∀ p ∈ data, ∃ t, lookupKey model p.1 = some (.ty t) ∧
        splitPath p.1 = [p.1] := by
      intro p hp
      cases he : lookupKey model p.1 with
      | none => exact absurd (he ▸ hall p hp) (by simp)
      | some e =>
          obtain ⟨t, ht⟩ := hty p hp e he
          refine ⟨t, ?_, hres p e he⟩
          rw [← ht]
    refine ⟨⟨data.map (fun p => (p.1, parsedOf model p)), some model, []⟩,
      ?_, rfl, ?_, ?_⟩
    · unfold parse_to_model
      rw [parseGo_ok model data [] hty' (fun p _ => rfl) hnd]
      rfl
    · simp
    · intro p hp t hk
      have := lookupKey_map_parsed model data p hp hnd
      have hpv : parsedOf model p = t.parser p.2 := by
        unfold parsedOf
        rw [hk]
      simpa [hpv] using this

theorem parse_to_model_spec_witness :
    parse_to_model [("a", .ty { description := "an int" })]
      [("unknown_key", .vint 1)] =
      .error (.keyNotInModel "unknown_key") := by
  refine (parse_to_model_spec [("a", .ty { description := "an int" })]
    [("unknown_key", .vint 1)] ?_ ?_).1 [] "unknown_key" (.vint 1) [] rfl ?_ ?_
  · intro q hq
    simp only [List.mem_singleton] at hq
    subst hq
    rfl
  · intro p hp e he
    simp only [List.mem_singleton] at hp
    subst hp
    have : (none : Option Entry) = some e := he
    cases this
  · intro p hp
    simp at hp
  · rfl

theorem genGo_roundtrip (model : Model) :
    ∀ data : List (String × Val),
    (∀ p ∈ data, ∃ t, lookupKey model p.1 = some (.ty t) ∧
      splitPath p.1 = [p.1] ∧ t.generator (parsedOf model p) = p.2) →
    genGo (some model) (data.map (fun p => (p.1, parsedOf model p))) =
      .ok data := by
  intro data
  induction data with
  | nil => intro _; rfl
  | cons p rest ih =>
      intro h
      obtain ⟨k, v⟩ := p
      obtain ⟨t, hk, hseg, hrt⟩ := h _ (List.mem_cons_self _ _)
      rw [List.map_cons]
      conv_lhs => rw [genGo]
      simp only [hseg, hk, modelGetSegs, entryGenFn, Bind.bind, Except.bind]
      rw [ih (fun q hq => h q (List.mem_cons_of_mem _ hq))]
      simp only [Except.bind]
      exact congrArg _ (congrArg (fun w => (k, w) :: rest) hrt)

/-- C7: for an external document `d` whose keys are declared in model `m`
(as leaf `Type` entries) and distinct, if each leaf satisfies the
generator-inverse-of-parser contract on its value, then
`generate_settings(parse_to_model(m, d))` returns exactly `d` — the same
keys, in the same order, with the same values. -/
theorem parse_generate_roundtrip (model : Model)
    (data : List (String × Val))
    (hm : ∀ q ∈ model, splitPath q.1 = [q.1])
    (hnd : (data.map Prod.fst).Nodup)
    (hro : ∀ p ∈ data, ∃ t, lookupKey model p.1 = some (.ty t) ∧
      t.generator (t.parser p.2) = p.2) :
    ∃ s', parse_to_model model data = .ok s' ∧
      generate_settings s' = .ok data := by
  have hty : ∀ p ∈ data, ∃ t, lookupKey model p.1 = some (.ty t) ∧
      splitPath p.1 = [p.1] := by
    intro p hp
    obtain ⟨t, hk, _⟩ := hro p hp
    exact ⟨t, hk, hm _ (lookupKey_mem hk)⟩
  refine ⟨⟨data.map (fun p => (p.1, parsedOf model p)), some model, []⟩,
    ?_, ?_⟩
  · unfold parse_to_model
    rw [parseGo_ok model data [] hty (fun p _ => rfl) hnd]
    rfl
  · unfold generate_settings
    refine genGo_roundtrip model data (fun p hp => ?_)
    obtain ⟨t, hk, hrt⟩ := hro p hp
    refine ⟨t, hk, hm _ (lookupKey_mem hk), ?_⟩
    have hpv : parsedOf model p = t.parser p.2 := by
      unfold parsedOf
      rw [hk]
    rw [hpv, hrt]

theorem parse_generate_roundtrip_witness :
    ∃ s', parse_to_model [("x", .ty { description := "an int" })]
        [("x", .vint 5)] = .ok s' ∧
      generate_settings s' = .ok [("x", .vint 5)] := by
  refine parse_generate_roundtrip _ _ ?_ ?_ ?_
  · intro q hq
    simp only [List.mem_singleton] at hq
    subst hq
    rfl
  · simp
  · intro p hp
    simp only [List.mem_singleton] at hp
    subst hp
    exact ⟨{ description := "an int" }, rfl, rfl⟩

theorem ObligAt.consLift {m : Model} {k : String} (q : String × Entry)
    (h : ObligAt m k) : ObligAt (q :: m) k := by
  cases h with
  | here hm ht => exact .here (List.mem_cons_of_mem _ hm) ht
  | there hm h' => exact .there (List.mem_cons_of_mem _ hm) h'

theorem keys_ne_of_any_false {rest : Model} {k : String}
    (h : rest.any (fun p => p.1 == k) = false) : ∀ p ∈ rest, p.1 ≠ k := by
  intro p hp
  have := List.any_eq_false.mp h p hp
  simpa using this

theorem applyModelSpec_cons (items : List (String × Val)) (k : String)
    (e : Entry) (rest : Model) :
    applyModelSpec items ((k, e) :: rest) =
      match applyEntrySpec k e (lookupKey items k) with
      | .error err => .error err
      | .ok (some v) => applyModelSpec (setKey items k v) rest
      | .ok none => applyModelSpec items rest := by
  rw [applyModelSpec]
  cases applyEntrySpec k e (lookupKey items k) with
  | error err => simp [Bind.bind, Except.bind]
  | ok r => cases r <;> simp [Bind.bind, Except.bind]

/-- Classification of the spec-modelled eager pass started on items that
contain none of the declared keys (in particular on an empty `Settings`):
it either succeeds, or fails with `MissingObligatoryError` naming a key
that the schema tree declares obligatory; moreover, if some declared
top-level leaf is obligatory, it certainly fails that way. -/
theorem applyModelSpec_empty_classify :
    ∀ (n : Nat) (m : Model) (items : List (String × Val)),
    sizeOf m ≤ n →
    (∀ p ∈ m, lookupKey items p.1 = none) →
    modelWf m = true →
    ((∃ l, applyModelSpec items m = .ok l) ∨
      (∃ k, applyModelSpec items m = .error (.missingObligatory k) ∧
        ObligAt m k)) ∧
    ((∃ k t, (k, Entry.ty t) ∈ m ∧ t.obligatory = true) →
      ∃ k, applyModelSpec items m = .error (.missingObligatory k) ∧
        ObligAt m k) := by
  intro n
  induction n with
  | zero =>
      intro m items hsz _ _
      exfalso
      cases m with
      | nil => simp at hsz
      | cons p rest =>
          simp only [List.cons.sizeOf_spec] at hsz
          omega
  | succ n ihn =>
      intro m items hsz hinv hwf
      cases m with
      | nil =>
          refine ⟨Or.inl ⟨items, rfl⟩, ?_⟩
          rintro ⟨k, t, hmem, _⟩
          simp at hmem
      | cons p rest =>
          obtain ⟨k, e⟩ := p
          simp only [modelWf, Bool.and_eq_true, Bool.not_eq_true'] at hwf
          obtain ⟨⟨hwe, hany⟩, hwrest⟩ := hwf
          have hnone : lookupKey items k = none :=
            hinv (k, e) (List.mem_cons_self _ _)
          have hne : ∀ p ∈ rest, p.1 ≠ k := keys_ne_of_any_false hany
          have hszrest : sizeOf rest ≤ n := by
            simp only [List.cons.sizeOf_spec, Prod.mk.sizeOf_spec] at hsz
            omega
          cases e with
          | ty t =>
              cases hob : t.obligatory with
              | true =>
                  have heq : applyModelSpec items ((k, Entry.ty t) :: rest) =
                      .error (.missingObligatory k) := by
                    rw [applyModelSpec_cons, hnone]
                    simp [applyEntrySpec, hob]
                  have hoblig : ObligAt ((k, Entry.ty t) :: rest) k :=
                    .here (List.mem_cons_self _ _) hob
                  exact ⟨Or.inr ⟨k, heq, hoblig⟩, fun _ => ⟨k, heq, hoblig⟩⟩
              | false =>
                  have hstep : ∀ items' : List (String × Val),
                      (∀ p ∈ rest, lookupKey items' p.1 = none) →
                      applyModelSpec items ((k, Entry.ty t) :: rest) =
                        applyModelSpec items' rest →
                      ((∃ l, applyModelSpec items ((k, Entry.ty t) :: rest)
                          = .ok l) ∨
                        (∃ k', applyModelSpec items ((k, Entry.ty t) :: rest)
                          = .error (.missingObligatory k') ∧
                          ObligAt ((k, Entry.ty t) :: rest) k')) ∧
                      ((∃ k' t', (k', Entry.ty t') ∈
                          (k, Entry.ty t) :: rest ∧ t'.obligatory = true) →
                        ∃ k', applyModelSpec items ((k, Entry.ty t) :: rest)
                          = .error (.missingObligatory k') ∧
                          ObligAt ((k, Entry.ty t) :: rest) k') := by
                    intro items' hinv' heq
                    obtain ⟨ih1, ih2⟩ := ihn rest items' hszrest hinv' hwrest
                    constructor
                    · rcases ih1 with ⟨l, hl⟩ | ⟨k', hk', ho'⟩
                      · exact Or.inl ⟨l, heq ▸ hl⟩
                      · exact Or.inr ⟨k', heq ▸ hk', ho'.consLift _⟩
                    · rintro ⟨k0, t0, hmem, hob0⟩
                      rcases List.mem_cons.mp hmem with hhd | htl
                      · exfalso
                        have ht0 : t0 = t := by
                          injection hhd with h1 h2
                          injection h2 with h3
                        rw [ht0, hob] at hob0
                        cases hob0
                      · obtain ⟨k', hk', ho'⟩ := ih2 ⟨k0, t0, htl, hob0⟩
                        exact ⟨k', heq ▸ hk', ho'.consLift _⟩
                  cases hdef : t.default with
                  | none =>
                      refine hstep items (fun p hp => hinv p
                        (List.mem_cons_of_mem _ hp)) ?_
                      rw [applyModelSpec_cons, hnone]
                      simp [applyEntrySpec, hob, hdef]
                  | some d =>
                      cases d with
                      | lit v =>
                          refine hstep (setKey items k v) (fun p hp => ?_) ?_
                          · rw [lookupKey_setKey_ne _ _ _ _ (hne p hp)]
                            exact hinv p (List.mem_cons_of_mem _ hp)
                          · rw [applyModelSpec_cons, hnone]
                            simp [applyEntrySpec, hob, hdef]
                      | call f =>
                          refine hstep items (fun p hp => hinv p
                            (List.mem_cons_of_mem _ hp)) ?_
                          rw [applyModelSpec_cons, hnone]
                          simp [applyEntrySpec, hob, hdef]
          | sub m' =>
              have hwm' : modelWf m' = true := by
                simpa [entryWf] using hwe
              have hszm' : sizeOf m' ≤ n := by
                simp only [List.cons.sizeOf_spec, Prod.mk.sizeOf_spec,
                  Entry.sub.sizeOf_spec] at hsz
                omega
              obtain ⟨ih1', _⟩ := ihn m' [] hszm' (fun p _ => rfl) hwm'
              rcases ih1' with ⟨l, hl⟩ | ⟨k'', hk'', ho''⟩
              · have heq : applyModelSpec items ((k, Entry.sub m') :: rest) =
                    applyModelSpec (setKey items k (.vsets l)) rest := by
                  rw [applyModelSpec_cons, hnone]
                  simp [applyEntrySpec, hl, Bind.bind, Except.bind]
                have hinv' : ∀ p ∈ rest,
                    lookupKey (setKey items k (.vsets l)) p.1 = none := by
                  intro p hp
                  rw [lookupKey_setKey_ne _ _ _ _ (hne p hp)]
                  exact hinv p (List.mem_cons_of_mem _ hp)
                obtain ⟨ih1, ih2⟩ := ihn rest (setKey items k (.vsets l))
                  hszrest hinv' hwrest
                constructor
                · rcases ih1 with ⟨l', hl'⟩ | ⟨k', hk', ho'⟩
                  · exact Or.inl ⟨l', heq ▸ hl'⟩
                  · exact Or.inr ⟨k', heq ▸ hk', ho'.consLift _⟩
                · rintro ⟨k0, t0, hmem, hob0⟩
                  rcases List.mem_cons.mp hmem with hhd | htl
                  · exfalso
                    injection hhd with h1 h2
                    cases h2
                  · obtain ⟨k', hk', ho'⟩ := ih2 ⟨k0, t0, htl, hob0⟩
                    exact ⟨k', heq ▸ hk', ho'.consLift _⟩
              · have heq : applyModelSpec items ((k, Entry.sub m') :: rest) =
                    .error (.missingObligatory k'') := by
                  rw [applyModelSpec_cons, hnone]
                  simp [applyEntrySpec, hk'', Bind.bind, Except.bind]
                have ho : ObligAt ((k, Entry.sub m') :: rest) k'' :=
                  .there (List.mem_cons_self _ _) ho''
                exact ⟨Or.inr ⟨k'', heq, ho⟩, fun _ => ⟨k'', heq, ho⟩⟩

/-- C3 (spec-modelled): for a `Model` declaring a key with
`obligatory=True`, no literal default and no value supplied,
`apply_defaults_and_check(Settings(), m)` raises `MissingObligatoryError`
naming a key the schema declares obligatory (the named key is the first
obligatory-and-missing key the eager walk reaches). -/
theorem apply_defaults_obligatory (m : Model) (k : String) (t : Type')
    (hwf : modelWf m = true) (hk : (k, Entry.ty t) ∈ m)
    (hob : t.obligatory = true) (hdef : t.default = none) :
    ∃ k', apply_defaults_and_check ⟨[], none, []⟩ m =
      .error (.missingObligatory k') ∧ ObligAt m k' := by
  obtain ⟨_, h2⟩ := applyModelSpec_empty_classify (sizeOf m) m []
    (Nat.le_refl _) (fun p _ => rfl) hwf
  obtain ⟨k', hk', ho'⟩ := h2 ⟨k, t, hk, hob⟩
  refine ⟨k', ?_, ho'⟩
  unfold apply_defaults_and_check
  rw [hk']
  rfl

theorem apply_defaults_obligatory_witness :
    ∃ k', apply_defaults_and_check ⟨[], none, []⟩
        [("x", .ty { description := "required", obligatory := true })] =
      .error (.missingObligatory k') ∧
      ObligAt [("x", .ty { description := "required", obligatory := true })]
        k' :=
  apply_defaults_obligatory
    [("x", .ty { description := "required", obligatory := true })] "x"
    { description := "required", obligatory := true }
    rfl (List.mem_singleton.mpr rfl) rfl rfl
